import Mathlib

/-!
# Verification of `scilpy/denoise/asym_enhancement.py`

Shallow embedding of the asymmetric hemisphere-aware SH filtering module.
Python floats are modelled by real numbers; numpy arrays by functions out of
`Fin` types; the fallible numpy operations (shape checks of `np.dot`) by
`Except`.  External collaborators (dipy's `get_sphere` and `sh_to_sf_matrix`,
scipy's `correlate`) are modelled by parameters and by their documented
contracts; the code of this repository (`_get_weights`,
`_apply_naive_correlation`, `local_asym_gaussian_filtering`) is translated
operation by operation from the source.
-/

noncomputable section

open Classical

/-! ## Vectors (rows of `sphere.vertices` and the 3x3x3 offset grid) -/

/-- A vector in 3-space, used for sphere vertices and neighbor offsets. -/
structure Vec3 where
  x : ℝ
  y : ℝ
  z : ℝ

/-- Euclidean dot product (`np.dot` of two 3-vectors). -/
def dot3 (u v : Vec3) : ℝ := u.x * v.x + u.y * v.y + u.z * v.z

/-- Squared Euclidean norm. -/
def normSq3 (v : Vec3) : ℝ := v.x ^ 2 + v.y ^ 2 + v.z ^ 2

/-- Componentwise division of a vector by a scalar (`directions[...] /= dir_norm`). -/
def Vec3.sdiv (v : Vec3) (t : ℝ) : Vec3 := ⟨v.x / t, v.y / t, v.z / t⟩

/-! ## `_get_weights` (asym_enhancement.py lines 92-135)

The 3x3x3x(number of directions) weight array is a function
`Fin 3 → Fin 3 → Fin 3 → Fin N → ℝ`; a per-direction slice is a `Kern`. -/

/-- A 3x3x3 kernel slice (one sphere direction's spatial weights). -/
abbrev Kern := Fin 3 → Fin 3 → Fin 3 → ℝ

/-- Sum of the 27 entries of a kernel slice (`weights.reshape((-1, N)).sum(axis=0)`
for one direction, and `curr_w.sum()` / `(...).sum()` in the masked path). -/
def kernSum (w : Kern) : ℝ := ∑ p : Fin 3 × Fin 3 × Fin 3, w p.1 p.2.1 p.2.2

/-- The integer offset vector of cell `(a, b, c)` of the 3x3x3 neighborhood:
`directions[a,b,c] = (a-1, b-1, c-1)` (lines 110-116). -/
def offVec (a b c : Fin 3) : Vec3 :=
  ⟨((a : ℕ) : ℝ) - 1, ((b : ℕ) : ℝ) - 1, ((c : ℕ) : ℝ) - 1⟩

/-- `dir_norm[a,b,c] = np.linalg.norm(directions[a,b,c])` (line 122). -/
def dirNorm (a b c : Fin 3) : ℝ := Real.sqrt (normSq3 (offVec a b c))

/-- The normalized offset directions (line 123): every cell except the center
`(1,1,1)` is divided by its norm; the center is left at the zero vector. -/
def unitDir (a b c : Fin 3) : Vec3 :=
  if (a, b, c) = ((1 : Fin 3), (1 : Fin 3), (1 : Fin 3)) then offVec a b c
  else (offVec a b c).sdiv (dirNorm a b c)

/-- `g_weights = np.exp(-dir_norm**2 / (2 * sigma**2))` (line 125). -/
def gWeight (sigma : ℝ) (a b c : Fin 3) : ℝ :=
  Real.exp (-(dirNorm a b c) ^ 2 / (2 * sigma ^ 2))

/-- `d_weights = np.dot(directions, sphere.vertices.T)` followed by
`np.where(d_weights > 0.0, d_weights**dot_sharpness, 0.0)` (lines 126-128),
for one vertex `v`.  The exponent is a real power (`Real.rpow`). -/
def dWeight (dotSharpness : ℝ) (v : Vec3) (a b c : Fin 3) : ℝ :=
  if 0 < dot3 (unitDir a b c) v then dot3 (unitDir a b c) v ^ dotSharpness else 0

/-- `weights = d_weights * g_weights` (line 129): combined spatial/directional
weight of an offset for vertex `v`, before the center override. -/
def combinedWeight (dotSharpness sigma : ℝ) (v : Vec3) (a b c : Fin 3) : ℝ :=
  dWeight dotSharpness v a b c * gWeight sigma a b c

/-- The weight array after `weights[1, 1, 1, :] = 1.0` (line 130): the center
cell is forced to 1, other cells keep the combined weight. -/
def preWeight (dotSharpness sigma : ℝ) (v : Vec3) (a b c : Fin 3) : ℝ :=
  if (a, b, c) = ((1 : Fin 3), (1 : Fin 3), (1 : Fin 3)) then 1
  else combinedWeight dotSharpness sigma v a b c

/-- Per-direction raw weight sum just before normalization (the divisor of
line 133). -/
def rawSum (dotSharpness sigma : ℝ) (v : Vec3) : ℝ :=
  kernSum (fun a b c => preWeight dotSharpness sigma v a b c)

/-- `_get_weights(sphere, dot_sharpness, sigma)` (lines 92-135): the normalized
3x3x3xN weight array, for a sphere given by its `N` vertices. -/
def get_weights (N : ℕ) (verts : Fin N → Vec3) (dotSharpness sigma : ℝ)
    (a b c : Fin 3) (n : Fin N) : ℝ :=
  preWeight dotSharpness sigma (verts n) a b c / rawSum dotSharpness sigma (verts n)

/-! ## Scalar fields on the voxel grid and the two correlation paths -/

/-- A 3-dimensional scalar field of shape `(X, Y, Z)` (one direction's
evaluation of the SH field, or the voxel mask). -/
abbrev Grid3 (X Y Z : ℕ) : Type := Fin X → Fin Y → Fin Z → ℝ

section Grids

variable {X Y Z : ℕ}

/-- Zero-padded access to a field at integer coordinates: the value of
`np.pad(f, ((1,1),(1,1),(1,1)))` at padded index `(i+1, j+1, k+1)`, and also
the boundary convention of `scipy.ndimage.correlate(..., mode='constant')`. -/
def padGet (f : Grid3 X Y Z) (i j k : ℤ) : ℝ :=
  if hi : 0 ≤ i ∧ i < (X : ℤ) then
    if hj : 0 ≤ j ∧ j < (Y : ℤ) then
      if hk : 0 ≤ k ∧ k < (Z : ℤ) then
        f ⟨i.toNat, by omega⟩ ⟨j.toNat, by omega⟩ ⟨k.toNat, by omega⟩
      else 0
    else 0
  else 0

/-- `w_filter[1, 1, 1] = 0.0` (line 76): the kernel slice with its center
zeroed before the neighbor correlation of the unmasked path. -/
def zeroCenter (w : Kern) : Kern := fun a b c =>
  if (a, b, c) = ((1 : Fin 3), (1 : Fin 3), (1 : Fin 3)) then 0 else w a b c

/-- `scipy.ndimage.correlate(f, w, mode='constant')` for a 3x3x3 kernel:
`out[v] = sum over s of w[s] * f[v + s - 1]` with zero boundary values. -/
def correlateConst (f : Grid3 X Y Z) (w : Kern) : Grid3 X Y Z := fun i j k =>
  kernSum (fun a b c =>
    w a b c * padGet f (((i : ℕ) : ℤ) + ((a : ℕ) : ℤ) - 1) (((j : ℕ) : ℤ) + ((b : ℕ) : ℤ) - 1)
      (((k : ℕ) : ℤ) + ((c : ℕ) : ℤ) - 1))

/-- Pointwise update of an integer-indexed array (one in-place store
`arr[a, b, c] = x` into the padded array, in original coordinates). -/
def updZ (f : ℤ → ℤ → ℤ → ℝ) (a b c : ℤ) (x : ℝ) : ℤ → ℤ → ℤ → ℝ :=
  fun i j k => if i = a ∧ j = b ∧ k = c then x else f i j k

/-- Pointwise update of a grid (one in-place store `out[ii, jj, kk] = x`). -/
def updG (g : Grid3 X Y Z) (v : Fin X × Fin Y × Fin Z) (x : ℝ) : Grid3 X Y Z :=
  fun i j k => if (i, j, k) = v then x else g i j k

/-- `curr_w = w_filter * win_mask` (line 151): the kernel slice multiplied by
the zero-padded mask window centered at `(i, j, k)`.  The mask array is never
written, so the window is a pure function of the original mask. -/
def currWin (m : Grid3 X Y Z) (w : Kern) (i : Fin X) (j : Fin Y) (k : Fin Z) :
    Kern := fun a b c =>
  w a b c * padGet m (((i : ℕ) : ℤ) + ((a : ℕ) : ℤ) - 1) (((j : ℕ) : ℤ) + ((b : ℕ) : ℤ) - 1)
    (((k : ℕ) : ℤ) + ((c : ℕ) : ℤ) - 1)

/-- Lines 152-153: `if curr_w.any(): curr_w /= curr_w.sum()`.  When some entry
is non-zero the window weights are renormalized by their sum, otherwise they
are left as they are.  (If entries were non-zero yet summed to 0 — possible
only for masks with negative entries — the float code would produce
non-finite values where this real-valued model yields 0 by the division
convention; no theorem below relies on that corner.) -/
def renormalize (cw : Kern) : Kern :=
  if ∃ a b c, cw a b c ≠ 0 then fun a b c => cw a b c / kernSum cw else cw

/-- The mutable state of the `_apply_naive_correlation` loop: the padded copy
of `opposite_dir` (written through the `win_arr` window views, indexed here by
original coordinates) and the output array `out`. -/
structure NaiveState (X Y Z : ℕ) where
  pOpp : ℤ → ℤ → ℤ → ℝ
  out : Grid3 X Y Z

/-- The voxels `(ii, jj, kk)` in the iteration order of the three nested
`for range` loops of lines 144-146 (lexicographic). -/
def voxelList (X Y Z : ℕ) : List (Fin X × Fin Y × Fin Z) :=
  (List.finRange X).flatMap fun i =>
    (List.finRange Y).flatMap fun j =>
      (List.finRange Z).map fun k => (i, j, k)

/-- One iteration of the `_apply_naive_correlation` loop body (lines 147-157)
at voxel `v`.  `win_arr` is a view into the padded `opposite_dir` array, so
the store `win_arr[1,1,1] = curr_dir[ii+1,jj+1,kk+1]` persists in the state;
the padded `curr_dir` and `mask` arrays are only read (at the window center
the padded arrays hold the unpadded values `curr v` and `m v`). -/
def naiveStep (curr m : Grid3 X Y Z) (w : Kern) (st : NaiveState X Y Z)
    (v : Fin X × Fin Y × Fin Z) : NaiveState X Y Z :=
  let p := updZ st.pOpp ((v.1 : ℕ) : ℤ) ((v.2.1 : ℕ) : ℤ) ((v.2.2 : ℕ) : ℤ) (curr v.1 v.2.1 v.2.2)
  let win : Kern := fun a b c =>
    p (((v.1 : ℕ) : ℤ) + ((a : ℕ) : ℤ) - 1) (((v.2.1 : ℕ) : ℤ) + ((b : ℕ) : ℤ) - 1)
      (((v.2.2 : ℕ) : ℤ) + ((c : ℕ) : ℤ) - 1)
  let nw := renormalize (currWin m w v.1 v.2.1 v.2.2)
  let o := if 0 < m v.1 v.2.1 v.2.2 then
      updG st.out v (kernSum (fun a b c => win a b c * nw a b c))
    else st.out
  ⟨p, o⟩

/-- `_apply_naive_correlation(curr_dir, opposite_dir, w_filter, mask)`
(lines 138-158): fold the loop body over all voxels in iteration order,
starting from the freshly padded `opposite_dir` and an all-zero output. -/
def apply_naive_correlation (curr opp m : Grid3 X Y Z) (w : Kern) :
    Grid3 X Y Z :=
  ((voxelList X Y Z).foldl (naiveStep curr m w)
    ⟨fun i j k => padGet opp i j k, fun _ _ _ => 0⟩).out

/-- One direction's filtered field `mean_sf[..., dir_i]` (lines 71-82): the
`mask is None` dispatch between the unmasked fast path (center contribution
plus zero-padded correlation with the center-zeroed kernel) and the masked
windowed path. -/
def meanSfDir (curr opp : Grid3 X Y Z) (w : Kern) (mask : Option (Grid3 X Y Z)) :
    Grid3 X Y Z :=
  match mask with
  | none => fun i j k =>
      w 1 1 1 * curr i j k + correlateConst opp (zeroCenter w) i j k
  | some m => apply_naive_correlation curr opp m w

end Grids

/-! ## The pipeline `local_asym_gaussian_filtering` (lines 10-89)

The external collaborators are parameters: the sphere is given by its vertex
list (`get_sphere`), and dipy's `sh_to_sf_matrix` is a caller-supplied matrix
family.  Per the dipy contract, a forward matrix for order `L` has
`(L+1)^2` rows in the full basis and `(L+1)*(L+2)/2` rows in the symmetric
basis (for the even orders this filter is used with), and `N` columns; the
inverse matrix has `N` rows.  `np.dot(in_sh, B[:, d])` raises a `ValueError`
when the trailing dimension of `in_sh` differs from the row count of `B`;
this is the only fallible operation and is modelled with `Except`. -/

/-- Error outcomes used to state the error-handling claims.  The source
raises no validation error itself; `shapeMismatch` is the numpy shape
`ValueError` of `np.dot`, and `validationFailure` is the up-front rejection
the specification asks for (produced by no code path). -/
inductive NpErr
  | shapeMismatch
  | validationFailure
deriving DecidableEq

/-- Number of SH coefficients in the full basis: `(sh_order + 1)**2`
(line 53). -/
def fullCount (L : ℕ) : ℕ := (L + 1) ^ 2

/-- Number of SH coefficients of the symmetric basis for (even) order `L`,
the row count dipy's `sh_to_sf_matrix` uses when `full_basis=False`. -/
def symCount (L : ℕ) : ℕ := (L + 1) * (L + 2) / 2

/-- Row count of a forward projection matrix for basis flag `full`. -/
def coeffCount (full : Bool) (L : ℕ) : ℕ :=
  if full then fullCount L else symCount L

/-- `local_asym_gaussian_filtering(in_sh, sh_order, sh_basis, out_full_basis,
dot_sharpness, sphere_str, sigma, mask)` (lines 10-89).

`verts` is the sphere returned by `get_sphere(sphere_str)`; `shMat full neg`
is `sh_to_sf_matrix(sphere or its negation, sh_order, basis, return_inv=False,
full_basis=full)` and `shMatInv full` the inverse matrix of the
`sh_to_sf_matrix(..., full_basis=full)` call of line 85.  The input basis is
detected from the trailing dimension (line 53); each direction's field is the
`mask is None` dispatch of lines 71-82, and the result is reconstructed
against `shMatInv` (line 88).  When the trailing dimension differs from the
row count of the chosen forward matrix, the first `np.dot` of the direction
loop raises, so the call fails exactly when the sphere is non-empty. -/
def local_asym_gaussian_filtering (X Y Z C L N : ℕ)
    (inSh : Fin X → Fin Y → Fin Z → Fin C → ℝ)
    (outFull : Bool) (dotSharpness sigma : ℝ)
    (verts : Fin N → Vec3)
    (shMat : (full : Bool) → Bool → Fin (coeffCount full L) → Fin N → ℝ)
    (shMatInv : (full : Bool) → Fin N → Fin (coeffCount full L) → ℝ)
    (mask : Option (Grid3 X Y Z)) :
    Except NpErr (Fin X → Fin Y → Fin Z → Fin (coeffCount outFull L) → ℝ) :=
  if h : C = coeffCount (decide (C = fullCount L)) L then
    Except.ok (fun i j k cc => ∑ d : Fin N,
      meanSfDir
        (fun i' j' k' => ∑ c : Fin C,
          inSh i' j' k' c * shMat (decide (C = fullCount L)) false (Fin.cast h c) d)
        (fun i' j' k' => ∑ c : Fin C,
          inSh i' j' k' c * shMat (decide (C = fullCount L)) true (Fin.cast h c) d)
        (fun a b c => get_weights N verts dotSharpness sigma a b c d)
        mask i j k * shMatInv outFull d cc)
  else if N = 0 then
    Except.ok (fun _ _ _ _ => 0)
  else
    Except.error NpErr.shapeMismatch

/-- Element dtype of a numpy array (only its identity matters here). -/
inductive DType
  | float32
  | float64
deriving DecidableEq

/-- A 4-dimensional numpy array `(X, Y, Z, C)` with its element dtype. -/
structure NDArray4 where
  X : ℕ
  Y : ℕ
  Z : ℕ
  C : ℕ
  dtype : DType
  data : Fin X → Fin Y → Fin Z → Fin C → ℝ

/-- The filter at the array level: `out_sh = np.array([np.dot(i, B_inv) for i
in mean_sf], dtype=in_sh.dtype)` (line 88) stacks `X` slices of shape
`(Y, Z, C_out)` into an `(X, Y, Z, C_out)` array cast to the input's dtype. -/
def filterND (a : NDArray4) (L N : ℕ) (outFull : Bool) (dotSharpness sigma : ℝ)
    (verts : Fin N → Vec3)
    (shMat : (full : Bool) → Bool → Fin (coeffCount full L) → Fin N → ℝ)
    (shMatInv : (full : Bool) → Fin N → Fin (coeffCount full L) → ℝ)
    (mask : Option (Grid3 a.X a.Y a.Z)) : Except NpErr NDArray4 :=
  (local_asym_gaussian_filtering a.X a.Y a.Z a.C L N a.data outFull
      dotSharpness sigma verts shMat shMatInv mask).map
    fun out => ⟨a.X, a.Y, a.Z, coeffCount outFull L, a.dtype, out⟩

/-- The caller-owned arrays: the input SH field and the optional mask.  Every
in-place store the source performs (`w_filter[1,1,1] = 0.0`,
`win_arr[1,1,1] = ...`, `curr_w /= ...`, `out[...] = ...`,
`mean_sf[...] = ...`) targets an array allocated inside the call
(`_get_weights`'s result, the `np.pad` copies, the `w_filter * win_mask`
product, `np.zeros`), so the caller's arrays are only read. -/
structure CallerState (X Y Z C : ℕ) where
  inSh : Fin X → Fin Y → Fin Z → Fin C → ℝ
  mask : Option (Grid3 X Y Z)

/-- The filter as a transformer of the caller-owned arrays: it reads them,
builds the result, and leaves them as they were. -/
def filterRun (X Y Z C L N : ℕ) (st : CallerState X Y Z C)
    (outFull : Bool) (dotSharpness sigma : ℝ) (verts : Fin N → Vec3)
    (shMat : (full : Bool) → Bool → Fin (coeffCount full L) → Fin N → ℝ)
    (shMatInv : (full : Bool) → Fin N → Fin (coeffCount full L) → ℝ) :
    CallerState X Y Z C ×
      Except NpErr (Fin X → Fin Y → Fin Z → Fin (coeffCount outFull L) → ℝ) :=
  (⟨st.inSh, st.mask⟩,
    local_asym_gaussian_filtering X Y Z C L N st.inSh outFull dotSharpness
      sigma verts shMat shMatInv st.mask)

/-! ## Concrete instances used by counterexamples and witnesses -/

/-- A one-vertex sphere whose direction points along negative x. -/
def vertsC1 : Fin 1 → Vec3 := fun _ => ⟨-1, 0, 0⟩

/-- The kernel slice of `_get_weights` for that sphere, `dot_sharpness = 0`,
`sigma = 1`, at direction 0. -/
def wC1 : Kern := fun a b c => get_weights 1 vertsC1 0 1 a b c 0

/-- The raw (pre-normalization) weight sum of that configuration. -/
def SC1 : ℝ := rawSum 0 1 (vertsC1 0)

/-- A constant-one SH field on a 2x1x1 grid with a single coefficient. -/
def inShC1 : Fin 2 → Fin 1 → Fin 1 → Fin 1 → ℝ := fun _ _ _ _ => 1

/-- Column `B[:, 0]` of a forward projection matrix. -/
def bColC1 : Fin 1 → ℝ := fun _ => 1

/-- Column `neg_B[:, 0]` of the antipodal projection matrix. -/
def negBColC1 : Fin 1 → ℝ := fun _ => 0

/-- `curr_dir_eval = np.dot(in_sh, B[:, 0])` on the 2x1x1 grid. -/
def currC1 : Grid3 2 1 1 := fun i j k => ∑ c : Fin 1, inShC1 i j k c * bColC1 c

/-- `opposite_dir_eval = np.dot(in_sh, neg_B[:, 0])` on the 2x1x1 grid. -/
def oppC1 : Grid3 2 1 1 := fun i j k => ∑ c : Fin 1, inShC1 i j k c * negBColC1 c

/-- The all-true mask on the 2x1x1 grid. -/
def onesMaskC1 : Grid3 2 1 1 := fun _ _ _ => 1

/-- A constant-one SH field on a 1x1x1 grid with one coefficient (order 0). -/
def inSh1 : Fin 1 → Fin 1 → Fin 1 → Fin 1 → ℝ := fun _ _ _ _ => 1

/-- A one-vertex sphere along positive x. -/
def verts1 : Fin 1 → Vec3 := fun _ => ⟨1, 0, 0⟩

/-- A concrete forward-matrix family for order 0 (both bases have one
coefficient): the direct matrix is all ones, the antipodal one all zeros. -/
def shMat0 : (full : Bool) → Bool → Fin (coeffCount full 0) → Fin 1 → ℝ :=
  fun _ neg _ _ => if neg then 0 else 1

/-- A concrete inverse-matrix family for order 0. -/
def shMatInv0 : (full : Bool) → Fin 1 → Fin (coeffCount full 0) → ℝ :=
  fun _ _ _ => 1

/-- The all-zero (everything masked out) mask on the 1x1x1 grid. -/
def maskZero1 : Grid3 1 1 1 := fun _ _ _ => 0

/-- The all-one mask on the 1x1x1 grid. -/
def maskOne1 : Grid3 1 1 1 := fun _ _ _ => 1

/-- A field with 5 coefficients: 5 matches neither the full count 9 nor the
symmetric count 6 of order 2. -/
def inSh5 : Fin 1 → Fin 1 → Fin 1 → Fin 5 → ℝ := fun _ _ _ _ => 1

/-- A field with 7 coefficients (also matching neither count of order 2). -/
def inSh7 : Fin 1 → Fin 1 → Fin 1 → Fin 7 → ℝ := fun _ _ _ _ => 1

/-- A concrete forward-matrix family for order 2. -/
def shMat2 : (full : Bool) → Bool → Fin (coeffCount full 2) → Fin 1 → ℝ :=
  fun _ _ _ _ => 0

/-- A concrete inverse-matrix family for order 2. -/
def shMatInv2 : (full : Bool) → Fin 1 → Fin (coeffCount full 2) → ℝ :=
  fun _ _ _ => 0

/-! ## Helper lemmas about the weight kernel -/

theorem dWeight_nonneg (s : ℝ) (v : Vec3) (a b c : Fin 3) :
    0 ≤ dWeight s v a b c := by
  unfold dWeight
  split_ifs with h
  · exact Real.rpow_nonneg (le_of_lt h) s
  · exact le_refl 0

theorem gWeight_pos (sigma : ℝ) (a b c : Fin 3) : 0 < gWeight sigma a b c :=
  Real.exp_pos _

theorem combinedWeight_nonneg (s sigma : ℝ) (v : Vec3) (a b c : Fin 3) :
    0 ≤ combinedWeight s sigma v a b c :=
  mul_nonneg (dWeight_nonneg s v a b c) (le_of_lt (gWeight_pos sigma a b c))

theorem preWeight_nonneg (s sigma : ℝ) (v : Vec3) (a b c : Fin 3) :
    0 ≤ preWeight s sigma v a b c := by
  unfold preWeight
  split_ifs with h
  · exact zero_le_one
  · exact combinedWeight_nonneg s sigma v a b c

theorem preWeight_center (s sigma : ℝ) (v : Vec3) :
    preWeight s sigma v 1 1 1 = 1 := if_pos rfl

theorem kernSum_pos_of_center (w : Kern) (h0 : ∀ a b c, 0 ≤ w a b c)
    (hc : 0 < w 1 1 1) : 0 < kernSum w :=
  lt_of_lt_of_le hc
    (Finset.single_le_sum
      (f := fun p : Fin 3 × Fin 3 × Fin 3 => w p.1 p.2.1 p.2.2)
      (fun p _ => h0 p.1 p.2.1 p.2.2)
      (Finset.mem_univ ((1 : Fin 3), (1 : Fin 3), (1 : Fin 3))))

theorem one_le_rawSum (s sigma : ℝ) (v : Vec3) : 1 ≤ rawSum s sigma v := by
  have h := Finset.single_le_sum
    (f := fun p : Fin 3 × Fin 3 × Fin 3 => preWeight s sigma v p.1 p.2.1 p.2.2)
    (fun p _ => preWeight_nonneg s sigma v p.1 p.2.1 p.2.2)
    (Finset.mem_univ ((1 : Fin 3), (1 : Fin 3), (1 : Fin 3)))
  simpa [rawSum, kernSum, preWeight_center] using h

theorem rawSum_pos (s sigma : ℝ) (v : Vec3) : 0 < rawSum s sigma v :=
  lt_of_lt_of_le one_pos (one_le_rawSum s sigma v)

theorem kernSum_div (w : Kern) (t : ℝ) :
    kernSum (fun a b c => w a b c / t) = kernSum w / t := by
  simp [kernSum, Finset.sum_div]

theorem get_weights_nonneg (N : ℕ) (verts : Fin N → Vec3) (s sigma : ℝ)
    (a b c : Fin 3) (n : Fin N) : 0 ≤ get_weights N verts s sigma a b c n :=
  div_nonneg (preWeight_nonneg s sigma (verts n) a b c)
    (le_of_lt (rawSum_pos s sigma (verts n)))

theorem get_weights_center (N : ℕ) (verts : Fin N → Vec3) (s sigma : ℝ)
    (n : Fin N) :
    get_weights N verts s sigma 1 1 1 n = 1 / rawSum s sigma (verts n) := by
  unfold get_weights
  rw [preWeight_center]

theorem get_weights_center_pos (N : ℕ) (verts : Fin N → Vec3) (s sigma : ℝ)
    (n : Fin N) : 0 < get_weights N verts s sigma 1 1 1 n := by
  rw [get_weights_center]
  exact one_div_pos.mpr (rawSum_pos s sigma (verts n))

theorem kernSum_get_weights (N : ℕ) (verts : Fin N → Vec3) (s sigma : ℝ)
    (n : Fin N) :
    kernSum (fun a b c => get_weights N verts s sigma a b c n) = 1 := by
  unfold get_weights
  rw [kernSum_div]
  exact div_self (ne_of_gt (rawSum_pos s sigma (verts n)))

/-! ## Helper lemmas about padding and the masked loop -/

theorem padGet_coe {X Y Z : ℕ} (f : Grid3 X Y Z) (i : Fin X) (j : Fin Y)
    (k : Fin Z) : padGet f ((i : ℕ) : ℤ) ((j : ℕ) : ℤ) ((k : ℕ) : ℤ) = f i j k := by
  have hi : (0 : ℤ) ≤ ((i : ℕ) : ℤ) ∧ ((i : ℕ) : ℤ) < (X : ℤ) :=
    ⟨Int.natCast_nonneg _, by exact_mod_cast i.isLt⟩
  have hj : (0 : ℤ) ≤ ((j : ℕ) : ℤ) ∧ ((j : ℕ) : ℤ) < (Y : ℤ) :=
    ⟨Int.natCast_nonneg _, by exact_mod_cast j.isLt⟩
  have hk : (0 : ℤ) ≤ ((k : ℕ) : ℤ) ∧ ((k : ℕ) : ℤ) < (Z : ℤ) :=
    ⟨Int.natCast_nonneg _, by exact_mod_cast k.isLt⟩
  unfold padGet
  rw [dif_pos hi, dif_pos hj, dif_pos hk]
  rfl

theorem padGet_zero_fun {X Y Z : ℕ} (f : Grid3 X Y Z)
    (h : ∀ i j k, f i j k = 0) (i j k : ℤ) : padGet f i j k = 0 := by
  unfold padGet
  split_ifs <;> simp [h]

theorem padGet_nonneg {X Y Z : ℕ} (m : Grid3 X Y Z)
    (hm : ∀ i j k, 0 ≤ m i j k) (i j k : ℤ) : 0 ≤ padGet m i j k := by
  unfold padGet
  split_ifs <;> first | exact hm _ _ _ | exact le_refl 0

theorem currWin_center {X Y Z : ℕ} (m : Grid3 X Y Z) (w : Kern) (i : Fin X)
    (j : Fin Y) (k : Fin Z) : currWin m w i j k 1 1 1 = w 1 1 1 * m i j k := by
  unfold currWin
  norm_num
  rw [padGet_coe]
  exact Or.inl rfl

theorem naiveStep_out_self {X Y Z : ℕ} (curr m : Grid3 X Y Z) (w : Kern)
    (st : NaiveState X Y Z) (i : Fin X) (j : Fin Y) (k : Fin Z)
    (hm : 0 < m i j k) :
    (naiveStep curr m w st (i, j, k)).out i j k =
      kernSum (fun a b c =>
        updZ st.pOpp ((i : ℕ) : ℤ) ((j : ℕ) : ℤ) ((k : ℕ) : ℤ) (curr i j k)
          (((i : ℕ) : ℤ) + ((a : ℕ) : ℤ) - 1) (((j : ℕ) : ℤ) + ((b : ℕ) : ℤ) - 1)
          (((k : ℕ) : ℤ) + ((c : ℕ) : ℤ) - 1)
        * renormalize (currWin m w i j k) a b c) := by
  simp only [naiveStep]
  rw [if_pos hm]
  simp [updG]

theorem naive_foldl_out_of_nonpos {X Y Z : ℕ} (curr m : Grid3 X Y Z) (w : Kern)
    (i : Fin X) (j : Fin Y) (k : Fin Z) (hm : m i j k ≤ 0) :
    ∀ (l : List (Fin X × Fin Y × Fin Z)) (st : NaiveState X Y Z),
      (l.foldl (naiveStep curr m w) st).out i j k = st.out i j k := by
  intro l
  induction l with
  | nil => intro st; rfl
  | cons u l ih =>
    intro st
    rw [List.foldl_cons, ih]
    simp only [naiveStep]
    split_ifs with hg
    · unfold updG
      rw [if_neg]
      intro he
      rw [show u = (u.1, u.2.1, u.2.2) from rfl, ← he] at hg
      exact absurd hg (not_lt.mpr hm)
    · rfl

theorem apply_naive_out_of_nonpos {X Y Z : ℕ} (curr opp m : Grid3 X Y Z)
    (w : Kern) (i : Fin X) (j : Fin Y) (k : Fin Z) (hm : m i j k ≤ 0) :
    apply_naive_correlation curr opp m w i j k = 0 := by
  unfold apply_naive_correlation
  rw [naive_foldl_out_of_nonpos curr m w i j k hm]

/-! ## Evaluation lemmas for the concrete 2x1x1 masked-vs-unmasked instance -/

theorem kernSum_apply (w : Kern) : kernSum w =
    w 0 0 0 + w 0 0 1 + w 0 0 2 + (w 0 1 0 + w 0 1 1 + w 0 1 2)
      + (w 0 2 0 + w 0 2 1 + w 0 2 2)
    + (w 1 0 0 + w 1 0 1 + w 1 0 2 + (w 1 1 0 + w 1 1 1 + w 1 1 2)
      + (w 1 2 0 + w 1 2 1 + w 1 2 2))
    + (w 2 0 0 + w 2 0 1 + w 2 0 2 + (w 2 1 0 + w 2 1 1 + w 2 1 2)
      + (w 2 2 0 + w 2 2 1 + w 2 2 2)) := by
  simp [kernSum, Fintype.sum_prod_type, Fin.sum_univ_three]

theorem currC1_eq : ∀ (i : Fin 2) (j k : Fin 1), currC1 i j k = 1 := by
  intro i j k
  simp [currC1, inShC1, bColC1]

theorem oppC1_eq : ∀ (i : Fin 2) (j k : Fin 1), oppC1 i j k = 0 := by
  intro i j k
  simp [oppC1, inShC1, negBColC1]

theorem SC1_pos : 0 < SC1 := rawSum_pos 0 1 (vertsC1 0)

theorem preWeight_c1_011 :
    preWeight 0 1 (vertsC1 0) 0 1 1 = Real.exp (-(1 : ℝ) / 2) := by
  have hne : ¬((0 : Fin 3), (1 : Fin 3), (1 : Fin 3))
      = ((1 : Fin 3), (1 : Fin 3), (1 : Fin 3)) := by decide
  have hu : unitDir 0 1 1 = (offVec 0 1 1).sdiv (dirNorm 0 1 1) := by
    unfold unitDir
    rw [if_neg hne]
  have hd : dot3 (unitDir 0 1 1) (vertsC1 0) = 1 := by
    rw [hu]
    norm_num [dot3, Vec3.sdiv, offVec, dirNorm, normSq3, vertsC1, Real.sqrt_one]
  unfold preWeight
  rw [if_neg hne]
  unfold combinedWeight dWeight gWeight
  rw [hd, if_pos one_pos, Real.one_rpow, one_mul]
  unfold dirNorm
  rw [Real.sq_sqrt (by unfold normSq3; positivity)]
  norm_num [normSq3, offVec]

theorem SC1_gt_one : 1 < SC1 := by
  have key : preWeight 0 1 (vertsC1 0) 1 1 1 + preWeight 0 1 (vertsC1 0) 0 1 1
      ≤ SC1 := by
    have hle := Finset.sum_le_sum_of_subset_of_nonneg
      (f := fun p : Fin 3 × Fin 3 × Fin 3 =>
        preWeight 0 1 (vertsC1 0) p.1 p.2.1 p.2.2)
      (Finset.subset_univ
        ({((1 : Fin 3), (1 : Fin 3), (1 : Fin 3)),
          ((0 : Fin 3), (1 : Fin 3), (1 : Fin 3))} : Finset (Fin 3 × Fin 3 × Fin 3)))
      (fun p _ _ => preWeight_nonneg _ _ _ _ _ _)
    rw [Finset.sum_pair (by decide)] at hle
    exact hle
  rw [preWeight_center, preWeight_c1_011] at key
  have hexp : 0 < Real.exp (-(1 : ℝ) / 2) := Real.exp_pos _
  linarith

theorem wC1_center : wC1 1 1 1 = 1 / SC1 := get_weights_center 1 vertsC1 0 1 0

theorem wC1_nonneg (a b c : Fin 3) : 0 ≤ wC1 a b c :=
  get_weights_nonneg 1 vertsC1 0 1 a b c 0

theorem wC1_center_pos : 0 < wC1 1 1 1 := by
  rw [wC1_center]
  exact one_div_pos.mpr SC1_pos

theorem cw2_center : currWin onesMaskC1 wC1 1 0 0 1 1 1 = wC1 1 1 1 := by
  rw [currWin_center]
  norm_num [onesMaskC1]

theorem cw2_center_ne : currWin onesMaskC1 wC1 1 0 0 1 1 1 ≠ 0 := by
  rw [cw2_center]
  exact ne_of_gt wC1_center_pos

theorem cw2_sum :
    kernSum (currWin onesMaskC1 wC1 1 0 0) = wC1 0 1 1 + wC1 1 1 1 := by
  rw [kernSum_apply]
  norm_num [currWin, padGet, onesMaskC1]

theorem cw2_sum_ne : wC1 0 1 1 + wC1 1 1 1 ≠ 0 :=
  ne_of_gt (add_pos_of_nonneg_of_pos (wC1_nonneg 0 1 1) wC1_center_pos)

theorem maskedC1_val :
    apply_naive_correlation currC1 oppC1 onesMaskC1 wC1 1 0 0 = 1 := by
  have hvl : voxelList 2 1 1 =
      [((0 : Fin 2), (0 : Fin 1), (0 : Fin 1)),
        ((1 : Fin 2), (0 : Fin 1), (0 : Fin 1))] := by decide
  unfold apply_naive_correlation
  rw [hvl, List.foldl_cons, List.foldl_cons, List.foldl_nil]
  rw [naiveStep_out_self currC1 onesMaskC1 wC1 _ 1 0 0 (by norm_num [onesMaskC1])]
  have hpOpp : (naiveStep currC1 onesMaskC1 wC1
      ⟨fun i j k => padGet oppC1 i j k, fun _ _ _ => 0⟩
      ((0 : Fin 2), (0 : Fin 1), (0 : Fin 1))).pOpp
      = updZ (fun i j k => padGet oppC1 i j k) 0 0 0 1 := by
    simp only [naiveStep]
    norm_num [currC1_eq]
  rw [hpOpp]
  have hex : ∃ a b c, currWin onesMaskC1 wC1 1 0 0 a b c ≠ 0 :=
    ⟨1, 1, 1, cw2_center_ne⟩
  simp only [renormalize]
  rw [if_pos hex, cw2_sum, kernSum_apply]
  norm_num [currWin, padGet, onesMaskC1, updZ, currC1_eq, oppC1_eq]
  rw [div_add_div_same, div_self cw2_sum_ne]

theorem unmaskedC1_val :
    meanSfDir currC1 oppC1 wC1 none 1 0 0 = wC1 1 1 1 := by
  show wC1 1 1 1 * currC1 1 0 0 + correlateConst oppC1 (zeroCenter wC1) 1 0 0
    = wC1 1 1 1
  have hz := padGet_zero_fun oppC1 oppC1_eq
  rw [currC1_eq]
  unfold correlateConst
  simp [hz, kernSum]

/-! ## Claim theorems -/

/-- Claim C1 (refuted; code bug): the masked path with an all-true mask does
NOT reproduce the unmasked path.  On a 2x1x1 grid with one coefficient, a
one-vertex sphere along negative x, `dot_sharpness = 0`, `sigma = 1`,
`B = [1]`, `neg_B = [0]` and a constant-one field, voxel `(1,0,0)` gets
masked value 1 but unmasked value `1 / rawSum < 1`: the window store
`win_arr[1,1,1] = curr_dir[...]` aliases the shared padded array (so the
later window reads the earlier voxel's `curr` value instead of its
`opposite` value), and the masked path renormalizes over the truncated
boundary window while the unmasked path zero-pads without renormalizing. -/
theorem C1_masked_differs_from_unmasked_all_true :
    meanSfDir currC1 oppC1 wC1 (some onesMaskC1) 1 0 0
      ≠ meanSfDir currC1 oppC1 wC1 none 1 0 0 := by
  rw [unmaskedC1_val, wC1_center]
  show apply_naive_correlation currC1 oppC1 onesMaskC1 wC1 1 0 0 ≠ 1 / SC1
  rw [maskedC1_val]
  intro h
  have hlt : 1 / SC1 < 1 := (div_lt_one SC1_pos).mpr SC1_gt_one
  linarith

/-- Claim C2: for every sphere of unit vectors, every `dot_sharpness ≥ 0` and
every `sigma > 0`, the kernel built by `_get_weights` has, for each direction
`n`, 27 offset weights that sum to 1 and are all non-negative. -/
theorem C2_kernel_normalized_nonneg (N : ℕ) (verts : Fin N → Vec3)
    (dotSharpness sigma : ℝ) (hσ : 0 < sigma) (hd : 0 ≤ dotSharpness)
    (hu : ∀ n, normSq3 (verts n) = 1) (n : Fin N) :
    kernSum (fun a b c => get_weights N verts dotSharpness sigma a b c n) = 1 ∧
      ∀ a b c, 0 ≤ get_weights N verts dotSharpness sigma a b c n :=
  ⟨kernSum_get_weights N verts dotSharpness sigma n,
    fun a b c => get_weights_nonneg N verts dotSharpness sigma a b c n⟩

/-- Witness for C2 at a concrete one-vertex unit sphere, `dot_sharpness = 0`,
`sigma = 1`. -/
theorem C2_kernel_normalized_nonneg_witness :
    (0 : ℝ) < 1 ∧ (0 : ℝ) ≤ 0 ∧ (∀ n : Fin 1, normSq3 (verts1 n) = 1) ∧
    (kernSum (fun a b c => get_weights 1 verts1 0 1 a b c 0) = 1 ∧
      ∀ a b c, 0 ≤ get_weights 1 verts1 0 1 a b c 0) :=
  ⟨by norm_num, le_refl 0, fun n => by norm_num [normSq3, verts1],
    C2_kernel_normalized_nonneg 1 verts1 0 1 (by norm_num) (le_refl 0)
      (fun n => by norm_num [normSq3, verts1]) 0⟩

/-- Claim C7: for every sphere, `dot_sharpness ≥ 0` and `sigma > 0`, the
per-direction raw weight sum before normalization is at least 1 (the center
offset is forced to 1), so the normalization division of `_get_weights` never
divides by zero. -/
theorem C7_raw_sum_ge_one (N : ℕ) (verts : Fin N → Vec3)
    (dotSharpness sigma : ℝ) (hσ : 0 < sigma) (hd : 0 ≤ dotSharpness)
    (n : Fin N) :
    1 ≤ rawSum dotSharpness sigma (verts n) ∧
      rawSum dotSharpness sigma (verts n) ≠ 0 :=
  ⟨one_le_rawSum dotSharpness sigma (verts n),
    ne_of_gt (rawSum_pos dotSharpness sigma (verts n))⟩

/-- Witness for C7 at a concrete one-vertex sphere. -/
theorem C7_raw_sum_ge_one_witness :
    (0 : ℝ) < 1 ∧ (0 : ℝ) ≤ 0 ∧
    (1 ≤ rawSum 0 1 (verts1 0) ∧ rawSum 0 1 (verts1 0) ≠ 0) :=
  ⟨by norm_num, le_refl 0, C7_raw_sum_ge_one 1 verts1 0 1 (by norm_num) (le_refl 0) 0⟩

/-- Claim C8: with `dot_sharpness = 0`, the combined weight of line 129
(before the center override and the normalization) at any non-center offset
equals the Gaussian spatial term when the offset's unit direction has a
strictly positive dot product with the vertex, and 0 otherwise. -/
theorem C8_sharpness_zero_weight (sigma : ℝ) (v : Vec3) (a b c : Fin 3)
    (hσ : 0 < sigma)
    (hc : (a, b, c) ≠ ((1 : Fin 3), (1 : Fin 3), (1 : Fin 3))) :
    combinedWeight 0 sigma v a b c =
      if 0 < dot3 (unitDir a b c) v then
        Real.exp (-normSq3 (offVec a b c) / (2 * sigma ^ 2))
      else 0 := by
  unfold combinedWeight dWeight gWeight dirNorm
  rw [Real.sq_sqrt (by unfold normSq3; positivity)]
  split_ifs with h
  · rw [Real.rpow_zero, one_mul]
  · rw [zero_mul]

/-- Witness for C8 at the offset `(-1, 0, 0)` and vertex `(-1, 0, 0)`. -/
theorem C8_sharpness_zero_weight_witness :
    (0 : ℝ) < 1 ∧
    ((0 : Fin 3), (1 : Fin 3), (1 : Fin 3)) ≠ ((1 : Fin 3), (1 : Fin 3), (1 : Fin 3)) ∧
    combinedWeight 0 1 ⟨-1, 0, 0⟩ 0 1 1 =
      if 0 < dot3 (unitDir 0 1 1) ⟨-1, 0, 0⟩ then
        Real.exp (-normSq3 (offVec 0 1 1) / (2 * 1 ^ 2))
      else 0 :=
  ⟨by norm_num, by decide,
    C8_sharpness_zero_weight 1 ⟨-1, 0, 0⟩ 0 1 1 (by norm_num) (by decide)⟩

/-- Claim C10: in the masked path, at any voxel whose own mask value is
strictly positive (with a non-negative mask), the window weights
`curr_w = w_filter * win_mask` have a strictly positive center entry, so the
`curr_w.any()` renormalization branch is taken and the weights actually
applied sum exactly to 1; the all-zero fallback never coincides with the
valid-center output computation. -/
theorem C10_renormalization_branch (X Y Z N : ℕ) (verts : Fin N → Vec3)
    (dotSharpness sigma : ℝ) (hσ : 0 < sigma) (hd : 0 ≤ dotSharpness)
    (m : Grid3 X Y Z) (hm : ∀ i j k, 0 ≤ m i j k) (i : Fin X) (j : Fin Y)
    (k : Fin Z) (hpos : 0 < m i j k) (n : Fin N) :
    0 < currWin m (fun a b c => get_weights N verts dotSharpness sigma a b c n) i j k 1 1 1 ∧
    renormalize (currWin m (fun a b c => get_weights N verts dotSharpness sigma a b c n) i j k)
      = (fun a b c =>
          currWin m (fun a b c => get_weights N verts dotSharpness sigma a b c n) i j k a b c
            / kernSum (currWin m (fun a b c => get_weights N verts dotSharpness sigma a b c n) i j k)) ∧
    kernSum (renormalize (currWin m (fun a b c => get_weights N verts dotSharpness sigma a b c n) i j k)) = 1 := by
  set w : Kern := fun a b c => get_weights N verts dotSharpness sigma a b c n with hw
  have hcenter : 0 < currWin m w i j k 1 1 1 := by
    rw [currWin_center]
    exact mul_pos (get_weights_center_pos N verts dotSharpness sigma n) hpos
  have hnn : ∀ a b c, 0 ≤ currWin m w i j k a b c := fun a b c =>
    mul_nonneg (get_weights_nonneg N verts dotSharpness sigma a b c n)
      (padGet_nonneg m hm _ _ _)
  have hsum : 0 < kernSum (currWin m w i j k) :=
    kernSum_pos_of_center _ hnn hcenter
  have hex : ∃ a b c, currWin m w i j k a b c ≠ 0 := ⟨1, 1, 1, ne_of_gt hcenter⟩
  have hbr : renormalize (currWin m w i j k)
      = fun a b c => currWin m w i j k a b c / kernSum (currWin m w i j k) := by
    unfold renormalize
    rw [if_pos hex]
  refine ⟨hcenter, hbr, ?_⟩
  rw [hbr, kernSum_div]
  exact div_self (ne_of_gt hsum)

/-- Witness for C10 on a 1x1x1 grid with an all-one mask. -/
theorem C10_renormalization_branch_witness :
    (0 : ℝ) < 1 ∧ (0 : ℝ) ≤ 0 ∧ (∀ i j k, 0 ≤ maskOne1 i j k) ∧
    (0 : ℝ) < maskOne1 0 0 0 ∧
    (0 < currWin maskOne1 (fun a b c => get_weights 1 verts1 0 1 a b c 0) 0 0 0 1 1 1 ∧
      renormalize (currWin maskOne1 (fun a b c => get_weights 1 verts1 0 1 a b c 0) 0 0 0)
        = (fun a b c =>
            currWin maskOne1 (fun a b c => get_weights 1 verts1 0 1 a b c 0) 0 0 0 a b c
              / kernSum (currWin maskOne1 (fun a b c => get_weights 1 verts1 0 1 a b c 0) 0 0 0)) ∧
      kernSum (renormalize (currWin maskOne1 (fun a b c => get_weights 1 verts1 0 1 a b c 0) 0 0 0)) = 1) :=
  ⟨by norm_num, le_refl 0, fun i j k => by norm_num [maskOne1],
    by norm_num [maskOne1],
    C10_renormalization_branch 1 1 1 1 verts1 0 1 (by norm_num) (le_refl 0)
      maskOne1 (fun i j k => by norm_num [maskOne1]) 0 0 0
      (by norm_num [maskOne1]) 0⟩

/-- Claim C5: in a masked invocation, every voxel whose mask value is `≤ 0`
has exactly zero output in every coefficient, whatever the voxel's and its
neighbors' values: when the pipeline returns a field, its value there is 0. -/
theorem C5_masked_out_voxel_zero (X Y Z C L N : ℕ)
    (inSh : Fin X → Fin Y → Fin Z → Fin C → ℝ) (outFull : Bool)
    (dotSharpness sigma : ℝ) (verts : Fin N → Vec3)
    (shMat : (full : Bool) → Bool → Fin (coeffCount full L) → Fin N → ℝ)
    (shMatInv : (full : Bool) → Fin N → Fin (coeffCount full L) → ℝ)
    (m : Grid3 X Y Z) (i : Fin X) (j : Fin Y) (k : Fin Z)
    (cc : Fin (coeffCount outFull L)) (hm : m i j k ≤ 0) :
    (local_asym_gaussian_filtering X Y Z C L N inSh outFull dotSharpness sigma
        verts shMat shMatInv (some m)).map (fun o => o i j k cc)
      = (local_asym_gaussian_filtering X Y Z C L N inSh outFull dotSharpness
          sigma verts shMat shMatInv (some m)).map (fun _ => (0 : ℝ)) := by
  unfold local_asym_gaussian_filtering
  split_ifs with h1 h2
  · simp only [Except.map]
    congr 1
    refine Finset.sum_eq_zero fun d _ => ?_
    show apply_naive_correlation _ _ m _ i j k * _ = 0
    rw [apply_naive_out_of_nonpos _ _ _ _ _ _ _ hm, zero_mul]
  · rfl
  · rfl

/-- Witness for C5: a fully masked-out 1x1x1 grid. -/
theorem C5_masked_out_voxel_zero_witness :
    maskZero1 0 0 0 ≤ 0 ∧
    (local_asym_gaussian_filtering 1 1 1 1 0 1 inSh1 true 1 1 verts1 shMat0
        shMatInv0 (some maskZero1)).map (fun o => o 0 0 0 ⟨0, by decide⟩)
      = (local_asym_gaussian_filtering 1 1 1 1 0 1 inSh1 true 1 1 verts1
          shMat0 shMatInv0 (some maskZero1)).map (fun _ => (0 : ℝ)) :=
  ⟨by norm_num [maskZero1],
    C5_masked_out_voxel_zero 1 1 1 1 0 1 inSh1 true 1 1 verts1 shMat0
      shMatInv0 maskZero1 0 0 0 ⟨0, by decide⟩ (by norm_num [maskZero1])⟩

/-- Claim C6: the returned field keeps the input's spatial shape, carries the
coefficient count of the configured output basis, and keeps the input's
element dtype (whenever a field is returned at all). -/
theorem C6_output_shape_dtype (a : NDArray4) (L N : ℕ) (outFull : Bool)
    (dotSharpness sigma : ℝ) (verts : Fin N → Vec3)
    (shMat : (full : Bool) → Bool → Fin (coeffCount full L) → Fin N → ℝ)
    (shMatInv : (full : Bool) → Fin N → Fin (coeffCount full L) → ℝ)
    (mask : Option (Grid3 a.X a.Y a.Z)) :
    (filterND a L N outFull dotSharpness sigma verts shMat shMatInv mask).map
        (fun o => (o.X, o.Y, o.Z, o.C, o.dtype))
      = (filterND a L N outFull dotSharpness sigma verts shMat shMatInv
          mask).map
          (fun _ => (a.X, a.Y, a.Z, coeffCount outFull L, a.dtype)) := by
  unfold filterND
  cases he : local_asym_gaussian_filtering a.X a.Y a.Z a.C L N a.data outFull
    dotSharpness sigma verts shMat shMatInv mask <;> simp [Except.map]

/-- Claim C9: the filter leaves the caller's arrays (`in_sh` and the optional
mask) exactly as they were; its only effect is the returned output.  Every
in-place store of the source targets an array allocated within the call, so
the caller-state component of `filterRun` is returned untouched. -/
theorem C9_caller_arrays_unchanged (X Y Z C L N : ℕ)
    (st : CallerState X Y Z C) (outFull : Bool) (dotSharpness sigma : ℝ)
    (verts : Fin N → Vec3)
    (shMat : (full : Bool) → Bool → Fin (coeffCount full L) → Fin N → ℝ)
    (shMatInv : (full : Bool) → Fin N → Fin (coeffCount full L) → ℝ) :
    (filterRun X Y Z C L N st outFull dotSharpness sigma verts shMat
      shMatInv).1 = st := rfl

/-- Claim C3 counterexample: with `sigma = -1 ≤ 0` (and likewise with
`dot_sharpness = -1 < 0`) the filter does not reject the configuration: the
call succeeds, so no validation failure is reported up front. -/
theorem C3_counterexample_no_rejection :
    (local_asym_gaussian_filtering 1 1 1 1 0 1 inSh1 true 1 (-1) verts1
      shMat0 shMatInv0 none).isOk = true ∧
    (local_asym_gaussian_filtering 1 1 1 1 0 1 inSh1 true (-1) 1 verts1
      shMat0 shMatInv0 none).isOk = true ∧
    local_asym_gaussian_filtering 1 1 1 1 0 1 inSh1 true 1 (-1) verts1
      shMat0 shMatInv0 none ≠ Except.error NpErr.validationFailure := by
  refine ⟨rfl, rfl, fun h => ?_⟩
  have h1 : (local_asym_gaussian_filtering 1 1 1 1 0 1 inSh1 true 1 (-1)
      verts1 shMat0 shMatInv0 none).isOk = true := rfl
  rw [h] at h1
  exact Bool.noConfusion h1

/-- Claim C3 amended: the code performs no up-front validation of `sigma` or
`dot_sharpness`; whenever the coefficient count matches the detected basis,
a call with `sigma ≤ 0` or a negative `dot_sharpness` still succeeds. -/
theorem C3_amended_no_validation (X Y Z C L N : ℕ)
    (inSh : Fin X → Fin Y → Fin Z → Fin C → ℝ) (outFull : Bool)
    (dotSharpness sigma : ℝ) (verts : Fin N → Vec3)
    (shMat : (full : Bool) → Bool → Fin (coeffCount full L) → Fin N → ℝ)
    (shMatInv : (full : Bool) → Fin N → Fin (coeffCount full L) → ℝ)
    (mask : Option (Grid3 X Y Z))
    (hinvalid : sigma ≤ 0 ∨ dotSharpness < 0)
    (hC : C = coeffCount (decide (C = fullCount L)) L) :
    (local_asym_gaussian_filtering X Y Z C L N inSh outFull dotSharpness
      sigma verts shMat shMatInv mask).isOk = true := by
  unfold local_asym_gaussian_filtering
  rw [dif_pos hC]
  rfl

/-- Witness for the amended C3 at `sigma = -1`. -/
theorem C3_amended_no_validation_witness :
    ((-1 : ℝ) ≤ 0 ∨ (1 : ℝ) < 0) ∧
    1 = coeffCount (decide (1 = fullCount 0)) 0 ∧
    (local_asym_gaussian_filtering 1 1 1 1 0 1 inSh1 true 1 (-1) verts1
      shMat0 shMatInv0 none).isOk = true :=
  ⟨Or.inl (by norm_num), rfl,
    C3_amended_no_validation 1 1 1 1 0 1 inSh1 true 1 (-1) verts1 shMat0
      shMatInv0 none (Or.inl (by norm_num)) rfl⟩

/-- Claim C4 counterexample: with 5 coefficients at order 2 (full count 9,
symmetric count 6) the filter does not report an up-front validation failure;
it fails with the shape error of the first `np.dot` inside the direction
loop. -/
theorem C4_counterexample_shape_error_not_validation :
    local_asym_gaussian_filtering 1 1 1 5 2 1 inSh5 true 1 1 verts1 shMat2
      shMatInv2 none = Except.error NpErr.shapeMismatch ∧
    local_asym_gaussian_filtering 1 1 1 5 2 1 inSh5 true 1 1 verts1 shMat2
      shMatInv2 none ≠ Except.error NpErr.validationFailure := by
  refine ⟨rfl, fun h => ?_⟩
  have h1 : Except.error (α := Fin 1 → Fin 1 → Fin 1 → Fin (coeffCount true 2) → ℝ)
      NpErr.shapeMismatch = Except.error NpErr.validationFailure := h
  injection h1 with h2
  exact NpErr.noConfusion h2

/-- Claim C4 amended: a trailing dimension matching neither the full nor the
symmetric coefficient count is not caught by any up-front validation; the
basis flag silently defaults to symmetric and, for a non-empty sphere, the
call fails with the shape error raised by the first projection `np.dot`. -/
theorem C4_amended_shape_error (X Y Z C L N : ℕ)
    (inSh : Fin X → Fin Y → Fin Z → Fin C → ℝ) (outFull : Bool)
    (dotSharpness sigma : ℝ) (verts : Fin N → Vec3)
    (shMat : (full : Bool) → Bool → Fin (coeffCount full L) → Fin N → ℝ)
    (shMatInv : (full : Bool) → Fin N → Fin (coeffCount full L) → ℝ)
    (mask : Option (Grid3 X Y Z)) (hL : Even L) (hfull : C ≠ fullCount L)
    (hsym : C ≠ symCount L) (hN : N ≠ 0) :
    local_asym_gaussian_filtering X Y Z C L N inSh outFull dotSharpness sigma
      verts shMat shMatInv mask = Except.error NpErr.shapeMismatch := by
  unfold local_asym_gaussian_filtering
  rw [decide_eq_false hfull]
  rw [dif_neg (by simpa [coeffCount] using hsym)]
  rw [if_neg hN]

/-- Witness for the amended C4 with 7 coefficients at order 2. -/
theorem C4_amended_shape_error_witness :
    Even 2 ∧ 7 ≠ fullCount 2 ∧ 7 ≠ symCount 2 ∧ (1 : ℕ) ≠ 0 ∧
    local_asym_gaussian_filtering 1 1 1 7 2 1 inSh7 true 1 1 verts1 shMat2
      shMatInv2 none = Except.error NpErr.shapeMismatch :=
  ⟨by decide, by decide, by decide, by decide,
    C4_amended_shape_error 1 1 1 7 2 1 inSh7 true 1 1 verts1 shMat2
      shMatInv2 none (by decide) (by decide) (by decide) (by decide)⟩

end
